import Mathlib

/-!
Verification development for the tessera tile-map editor core.

The definitions below are a shallow embedding of the TypeScript sources:
`src/stores/mapStore.ts`, `src/stores/historyStore.ts`,
`src/hooks/useHistory.ts`, `src/tools/floodFill.ts`, the selection store
and the tileset store.  JavaScript numbers used as coordinates or tile
ids become `Int`; stored tile values (a `Uint16Array`) become `List Nat`
whose entries are kept in range by the store's own clamping; the zustand
stores become pure state-passing functions; `Date.now()` and
`crypto.randomUUID()` become explicit parameters.
-/

namespace Tessera

/-- Clamp an integer tile id into the Uint16 range, the embedding of
`Math.max(0, Math.min(65535, tileId))` used by every write path in
`mapStore.ts`. -/
def clampTile (tileId : Int) : Nat :=
  (max 0 (min 65535 tileId)).toNat

/-- Resolution of the optional layer-id argument, modelling the JavaScript
expression `layerId || map.activeLayerId` (the empty string is falsy, so it
also falls back to the active layer). -/
def orElseId (layerId : Option String) (d : String) : String :=
  match layerId with
  | none => d
  | some s => if s = "" then d else s

/-- One layer of the map (`Layer` in `types/map.ts`).  The `opacity`
float from the source is carried as a rational; no operation embedded here
reads it. -/
structure Layer where
  id : String
  name : String
  visible : Bool
  locked : Bool
  opacity : Rat
  tiles : List Nat
deriving DecidableEq

/-- The multi-layer map (`TileMap` in `types/map.ts`).  Of the metadata
record only the `modifiedAt` timestamp is kept (the other fields are inert
strings never read by the embedded operations). -/
structure TileMap where
  width : Nat
  height : Nat
  tileSize : Nat
  layers : List Layer
  activeLayerId : String
  modifiedAt : Int
  version : Nat
deriving DecidableEq

/-- Update the first layer whose id matches, leaving the rest alone; this
is how the immer write blocks in `mapStore.ts` behave, since they locate
the target with `layers.find(...)` (first match) and mutate it in place. -/
def updateFirst (ls : List Layer) (lid : String) (f : Layer → Layer) : List Layer :=
  match ls with
  | [] => []
  | l :: rest => if l.id == lid then f l :: rest else l :: updateFirst rest lid f

/-- Embedding of `setTile` from `mapStore.ts`: silently a no-op when there
is no map, the target layer is missing or locked, or the coordinates are
out of bounds; otherwise writes the clamped tile id and bumps `version`. -/
def setTile (s : Option TileMap) (x y tileId : Int) (layerId : Option String) :
    Option TileMap :=
  match s with
  | none => none
  | some map =>
    let targetLayerId := orElseId layerId map.activeLayerId
    match map.layers.find? (fun l => l.id == targetLayerId) with
    | none => some map
    | some layer =>
      if layer.locked then some map
      else if x < 0 ∨ x ≥ (map.width : Int) ∨ y < 0 ∨ y ≥ (map.height : Int) then some map
      else
        let index := (y * (map.width : Int) + x).toNat
        some { map with
          layers := updateFirst map.layers targetLayerId
            (fun l => { l with tiles := l.tiles.set index (clampTile tileId) }),
          version := map.version + 1 }

/-- Embedding of `setTileRaw` from `mapStore.ts`: like `setTile` but with
no lock check, and the layer lookup happens after the bounds check (a
missing layer is still a silent no-op and does not bump `version`). -/
def setTileRaw (s : Option TileMap) (x y tileId : Int) (layerId : Option String) :
    Option TileMap :=
  match s with
  | none => none
  | some map =>
    let targetLayerId := orElseId layerId map.activeLayerId
    if x < 0 ∨ x ≥ (map.width : Int) ∨ y < 0 ∨ y ≥ (map.height : Int) then some map
    else
      match map.layers.find? (fun l => l.id == targetLayerId) with
      | none => some map
      | some _ =>
        let index := (y * (map.width : Int) + x).toNat
        some { map with
          layers := updateFirst map.layers targetLayerId
            (fun l => { l with tiles := l.tiles.set index (clampTile tileId) }),
          version := map.version + 1 }

/-- Embedding of `getTile` from `mapStore.ts`: returns 0 when there is no
map, the layer is missing, or the coordinates are out of bounds. -/
def getTile (s : Option TileMap) (x y : Int) (layerId : Option String) : Nat :=
  match s with
  | none => 0
  | some map =>
    let targetLayerId := orElseId layerId map.activeLayerId
    match map.layers.find? (fun l => l.id == targetLayerId) with
    | none => 0
    | some layer =>
      if x < 0 ∨ x ≥ (map.width : Int) ∨ y < 0 ∨ y ≥ (map.height : Int) then 0
      else layer.tiles.getD (y * (map.width : Int) + x).toNat 0

/-! Helper lemmas about layer lookup and the linear tile index. -/

theorem updateFirst_find? (ls : List Layer) (lid lid' : String) (g : Layer → List Nat) :
    (updateFirst ls lid (fun l => { l with tiles := g l })).find? (fun l => l.id == lid') =
      (ls.find? (fun l => l.id == lid')).map
        (fun l => if l.id == lid then { l with tiles := g l } else l) := by
  induction ls with
  | nil => simp [updateFirst]
  | cons l rest ih =>
    simp only [updateFirst]
    by_cases h1 : l.id = lid
    · simp only [h1, beq_self_eq_true, if_true]
      by_cases h2 : lid = lid'
      · rw [List.find?_cons_of_pos _ (by simp [h1, h2]),
          List.find?_cons_of_pos _ (by simp [h1, h2])]
        simp [h1, h2]
      · rw [List.find?_cons_of_neg _ (by simp [h1, h2]),
          List.find?_cons_of_neg _ (by simp [h1, h2])]
        rcases hfind : rest.find? (fun l => l.id == lid') with _ | l'
        · simp [hfind]
        · have hl' : l'.id = lid' := by
            have := List.find?_some hfind
            simpa using this
          have hcond : ¬ l'.id = lid := by
            rw [hl']
            intro hc
            exact h2 hc.symm
          simp [hfind, hcond]
    · have hb : (l.id == lid) = false := by simp [h1]
      simp only [hb, Bool.false_eq_true, if_false]
      by_cases h2 : l.id = lid'
      · rw [List.find?_cons_of_pos _ (by simp [h2]),
          List.find?_cons_of_pos _ (by simp [h2])]
        simp [h1]
      · rw [List.find?_cons_of_neg _ (by simp [h2]),
          List.find?_cons_of_neg _ (by simp [h2])]
        exact ih

theorem toNat_index_lt (W H : Nat) (x y : Int)
    (hx0 : 0 ≤ x) (hxW : x < (W : Int)) (hy0 : 0 ≤ y) (hyH : y < (H : Int)) :
    (y * (W : Int) + x).toNat < W * H := by
  obtain ⟨a, rfl⟩ := Int.eq_ofNat_of_zero_le hx0
  obtain ⟨b, rfl⟩ := Int.eq_ofNat_of_zero_le hy0
  have ha : a < W := by exact_mod_cast hxW
  have hb : b < H := by exact_mod_cast hyH
  have : ((b : Int) * W + a) = ((b * W + a : Nat) : Int) := by push_cast; ring
  rw [this, Int.toNat_natCast]
  calc b * W + a < b * W + W := by omega
    _ = (b + 1) * W := by ring
    _ ≤ H * W := Nat.mul_le_mul_right W hb
    _ = W * H := Nat.mul_comm H W

theorem toNat_index_inj (W : Nat) (x1 y1 x2 y2 : Int)
    (hx1 : 0 ≤ x1) (h1W : x1 < (W : Int)) (hy1 : 0 ≤ y1)
    (hx2 : 0 ≤ x2) (h2W : x2 < (W : Int)) (hy2 : 0 ≤ y2)
    (heq : (y1 * (W : Int) + x1).toNat = (y2 * (W : Int) + x2).toNat) :
    x1 = x2 ∧ y1 = y2 := by
  have h1 : 0 ≤ y1 * (W : Int) + x1 := by positivity
  have h2 : 0 ≤ y2 * (W : Int) + x2 := by positivity
  have heq' : y1 * (W : Int) + x1 = y2 * (W : Int) + x2 := by
    have := congrArg (fun n : Nat => (n : Int)) heq
    simpa [Int.toNat_of_nonneg h1, Int.toNat_of_nonneg h2] using this
  rcases lt_trichotomy y1 y2 with h | h | h
  · exfalso
    have hW : y1 * (W : Int) + (W : Int) ≤ y2 * (W : Int) := by
      have : (y1 + 1) * (W : Int) ≤ y2 * (W : Int) := by
        apply mul_le_mul_of_nonneg_right _ (by positivity)
        omega
      linarith [this]
    linarith
  · subst h
    exact ⟨by linarith [heq'], rfl⟩
  · exfalso
    have hW : y2 * (W : Int) + (W : Int) ≤ y1 * (W : Int) := by
      have : (y2 + 1) * (W : Int) ≤ y1 * (W : Int) := by
        apply mul_le_mul_of_nonneg_right _ (by positivity)
        omega
      linarith [this]
    linarith

/-- C9: for an in-bounds coordinate on an existing, unlocked layer of an
existing, well-formed map, `getTile` after `setTile x y v` returns
`clamp(v, 0, 65535)`. -/
theorem C9_getTile_after_setTile
    (map : TileMap) (layer : Layer) (x y v : Int) (lid : Option String)
    (hfind : map.layers.find? (fun l => l.id == orElseId lid map.activeLayerId) = some layer)
    (hlock : layer.locked = false)
    (hx0 : 0 ≤ x) (hxW : x < (map.width : Int)) (hy0 : 0 ≤ y) (hyH : y < (map.height : Int))
    (hlen : layer.tiles.length = map.width * map.height) :
    getTile (setTile (some map) x y v lid) x y lid = clampTile v := by
  have hid : layer.id = orElseId lid map.activeLayerId := by
    have := List.find?_some hfind
    simpa using this
  have hnb : ¬(x < 0 ∨ x ≥ (map.width : Int) ∨ y < 0 ∨ y ≥ (map.height : Int)) := by
    push_neg
    exact ⟨hx0, by omega, hy0, by omega⟩
  simp only [setTile, hfind, hlock, if_false, hnb, ite_false, Bool.false_eq_true]
  simp only [getTile]
  rw [updateFirst_find?, hfind]
  simp only [Option.map_some', hid, beq_self_eq_true, if_true, hnb, ite_false]
  have hidx : (y * (map.width : Int) + x).toNat < layer.tiles.length := by
    rw [hlen]; exact toNat_index_lt _ _ _ _ hx0 hxW hy0 hyH
  rw [List.getD_eq_getElem?_getD, List.getElem?_set_self (by simpa using hidx)]
  rfl

/-- Evaluation of C9 at a concrete map: writing 70000 at (1,0) reads back
as the clamped value 65535. -/
theorem C9_witness :
    getTile
      (setTile (some ⟨2, 1, 32, [⟨"L", "Layer 1", true, false, 1, [5, 0]⟩], "L", 0, 0⟩)
        1 0 70000 (some "L")) 1 0 (some "L") = 65535 := by
  have h := C9_getTile_after_setTile
    ⟨2, 1, 32, [⟨"L", "Layer 1", true, false, 1, [5, 0]⟩], "L", 0, 0⟩
    ⟨"L", "Layer 1", true, false, 1, [5, 0]⟩ 1 0 70000 (some "L")
    (by rfl) (by rfl) (by decide) (by decide) (by decide) (by decide) (by rfl)
  simpa [clampTile] using h

/-- C5: on a locked (but existing) layer and in-bounds coordinates,
`setTile` leaves the whole store unchanged, while `setTileRaw` writes the
clamped value regardless of the lock flag. -/
theorem C5_locked_setTile_noop_setTileRaw_writes
    (map : TileMap) (layer : Layer) (x y v : Int) (lid : String)
    (hne : lid ≠ "")
    (hfind : map.layers.find? (fun l => l.id == lid) = some layer)
    (hlock : layer.locked = true)
    (hx0 : 0 ≤ x) (hxW : x < (map.width : Int)) (hy0 : 0 ≤ y) (hyH : y < (map.height : Int))
    (hlen : layer.tiles.length = map.width * map.height) :
    setTile (some map) x y v (some lid) = some map ∧
    getTile (setTileRaw (some map) x y v (some lid)) x y (some lid) = clampTile v := by
  have hres : orElseId (some lid) map.activeLayerId = lid := by
    simp [orElseId, hne]
  have hid : layer.id = lid := by
    have := List.find?_some hfind
    simpa using this
  have hnb : ¬(x < 0 ∨ x ≥ (map.width : Int) ∨ y < 0 ∨ y ≥ (map.height : Int)) := by
    push_neg
    exact ⟨hx0, by omega, hy0, by omega⟩
  constructor
  · simp only [setTile, hres, hfind, hlock, if_true]
  · simp only [setTileRaw, hres, hnb, ite_false, hfind]
    simp only [getTile, hres]
    rw [updateFirst_find?, hfind]
    simp only [Option.map_some', hid, beq_self_eq_true, if_true, hnb, ite_false]
    have hidx : (y * (map.width : Int) + x).toNat < layer.tiles.length := by
      rw [hlen]; exact toNat_index_lt _ _ _ _ hx0 hxW hy0 hyH
    rw [List.getD_eq_getElem?_getD, List.getElem?_set_self (by simpa using hidx)]
    rfl

/-- Evaluation of C5 at a concrete locked layer: `setTile` leaves the map
untouched while `setTileRaw` stores the clamped value 7. -/
theorem C5_witness :
    setTile (some ⟨2, 1, 32, [⟨"L", "Layer 1", true, true, 1, [5, 0]⟩], "L", 0, 0⟩)
        0 0 7 (some "L") =
      some ⟨2, 1, 32, [⟨"L", "Layer 1", true, true, 1, [5, 0]⟩], "L", 0, 0⟩ ∧
    getTile
      (setTileRaw (some ⟨2, 1, 32, [⟨"L", "Layer 1", true, true, 1, [5, 0]⟩], "L", 0, 0⟩)
        0 0 7 (some "L")) 0 0 (some "L") = 7 := by
  have h := C5_locked_setTile_noop_setTileRaw_writes
    ⟨2, 1, 32, [⟨"L", "Layer 1", true, true, 1, [5, 0]⟩], "L", 0, 0⟩
    ⟨"L", "Layer 1", true, true, 1, [5, 0]⟩ 0 0 7 "L"
    (by decide) (by rfl) (by rfl) (by decide) (by decide) (by decide) (by decide) (by rfl)
  exact ⟨h.1, by simpa [clampTile] using h.2⟩

/-! A small theory of sequences of tile writes.  The undo/redo replay
loops of `useHistory.ts` and the selection-store callbacks both drive the
map store through repeated `setTileRaw`/`setTile` calls; reifying the call
sequence as a list lets one read the final grid with a single
last-write-wins characterisation. -/

/-- Argument tuple of one `setTile`/`setTileRaw` callback invocation. -/
structure TileWrite where
  x : Int
  y : Int
  v : Int
  lid : String
deriving DecidableEq

/-- Apply a list of writes through the raw (lock-bypassing) path, first
write first. -/
def applyRaw (s : Option TileMap) (ws : List TileWrite) : Option TileMap :=
  ws.foldl (fun t w => setTileRaw t w.x w.y w.v (some w.lid)) s

/-- Apply a list of writes through the checked `setTile` path, first
write first. -/
def applyChecked (s : Option TileMap) (ws : List TileWrite) : Option TileMap :=
  ws.foldl (fun t w => setTile t w.x w.y w.v (some w.lid)) s

/-- Decides whether the raw write `w`, applied in state `s`, actually
stores a value that the query `(qx, qy, qlid)` reads back: the write must
pass the bounds check, find its layer, land inside the layer's tile array,
and target exactly the queried cell. -/
def rawHit (s : Option TileMap) (w : TileWrite) (qx qy : Int) (qlid : Option String) : Bool :=
  match s with
  | none => false
  | some map =>
    match map.layers.find? (fun l => l.id == orElseId (some w.lid) map.activeLayerId) with
    | none => false
    | some layer =>
      decide (orElseId qlid map.activeLayerId = orElseId (some w.lid) map.activeLayerId) &&
      decide (qx = w.x) && decide (qy = w.y) &&
      decide (¬(w.x < 0 ∨ w.x ≥ (map.width : Int) ∨ w.y < 0 ∨ w.y ≥ (map.height : Int))) &&
      decide ((w.y * (map.width : Int) + w.x).toNat < layer.tiles.length)

theorem if_bool_false {α : Sort _} {inst : Decidable (false = true)} (a b : α) :
    @ite α (false = true) inst a b = b := by
  rcases inst with h | h
  · rfl
  · exact absurd h (by simp)

theorem if_bool_true {α : Sort _} {inst : Decidable (true = true)} (a b : α) :
    @ite α (true = true) inst a b = a := by
  rcases inst with h | h
  · exact absurd rfl h
  · rfl

theorem getTile_setTileRaw (s : Option TileMap) (w : TileWrite) (qx qy : Int)
    (qlid : Option String) :
    getTile (setTileRaw s w.x w.y w.v (some w.lid)) qx qy qlid =
      if rawHit s w qx qy qlid then clampTile w.v else getTile s qx qy qlid := by
  rcases s with _ | map
  · simp [setTileRaw, getTile, rawHit]
  · by_cases hb : w.x < 0 ∨ w.x ≥ (map.width : Int) ∨ w.y < 0 ∨ w.y ≥ (map.height : Int)
    · have hs : setTileRaw (some map) w.x w.y w.v (some w.lid) = some map := by
        simp [setTileRaw, hb]
      have hh : rawHit (some map) w qx qy qlid = false := by
        simp only [rawHit]
        rcases hf : map.layers.find?
            (fun l => l.id == orElseId (some w.lid) map.activeLayerId) with _ | layer
        · rw [hf]
        · rw [hf]
          simp [hb]
      rw [hs, hh, if_bool_false]
    · rcases hfind : map.layers.find?
          (fun l => l.id == orElseId (some w.lid) map.activeLayerId) with _ | layer
      · have hs : setTileRaw (some map) w.x w.y w.v (some w.lid) = some map := by
          simp [setTileRaw, hb, hfind]
        have hh : rawHit (some map) w qx qy qlid = false := by
          simp [rawHit, hfind]
        rw [hs, hh, if_bool_false]
      · have hs : setTileRaw (some map) w.x w.y w.v (some w.lid) =
            some { map with
              layers := updateFirst map.layers (orElseId (some w.lid) map.activeLayerId)
                (fun l => { l with
                  tiles := l.tiles.set (w.y * (map.width : Int) + w.x).toNat (clampTile w.v) }),
              version := map.version + 1 } := by
          simp [setTileRaw, hb, hfind]
        rw [hs]
        have hlid : layer.id = orElseId (some w.lid) map.activeLayerId := by
          have := List.find?_some hfind
          simpa using this
        simp only [getTile]
        rw [updateFirst_find?]
        by_cases hq : orElseId qlid map.activeLayerId = orElseId (some w.lid) map.activeLayerId
        · rw [hq, hfind]
          simp only [Option.map_some', hlid, beq_self_eq_true, if_true]
          have hh : rawHit (some map) w qx qy qlid =
              (decide (qx = w.x) && decide (qy = w.y) &&
                decide ((w.y * (map.width : Int) + w.x).toNat < layer.tiles.length)) := by
            simp [rawHit, hfind, hq, hb]
          rw [hh]
          by_cases hqb : qx < 0 ∨ qx ≥ (map.width : Int) ∨ qy < 0 ∨ qy ≥ (map.height : Int)
          · have hne : ¬(qx = w.x ∧ qy = w.y) := by
              rintro ⟨rfl, rfl⟩
              exact hb hqb
            have hcond : (decide (qx = w.x) && decide (qy = w.y) &&
                decide ((w.y * (map.width : Int) + w.x).toNat < layer.tiles.length)) = false := by
              rcases Decidable.em (qx = w.x) with h1 | h1
              · rcases Decidable.em (qy = w.y) with h2 | h2
                · exact absurd ⟨h1, h2⟩ hne
                · simp [h2]
              · simp [h1]
            rw [hcond, if_bool_false, if_pos hqb, if_pos hqb]
          · rw [if_neg hqb, if_neg hqb]
            push_neg at hb hqb
            by_cases hsame : qx = w.x ∧ qy = w.y
            · obtain ⟨h1, h2⟩ := hsame
              rw [h1, h2]
              by_cases hlen : (w.y * (map.width : Int) + w.x).toNat < layer.tiles.length
              · have hcond : (decide (w.x = w.x) && decide (w.y = w.y) &&
                    decide ((w.y * (map.width : Int) + w.x).toNat < layer.tiles.length)) = true := by
                  simp [hlen]
                rw [hcond, if_bool_true]
                rw [List.getD_eq_getElem?_getD, List.getElem?_set_self hlen]
                rfl
              · have hcond : (decide (w.x = w.x) && decide (w.y = w.y) &&
                    decide ((w.y * (map.width : Int) + w.x).toNat < layer.tiles.length)) = false := by
                  simp [hlen]
                rw [hcond, if_bool_false]
                rw [List.getD_eq_getElem?_getD, List.getD_eq_getElem?_getD]
                have hnone : ((layer.tiles.set (w.y * (map.width : Int) + w.x).toNat
                    (clampTile w.v))[(w.y * (map.width : Int) + w.x).toNat]?) = none := by
                  rw [List.getElem?_eq_none]
                  simpa using Nat.le_of_not_lt hlen
                have hnone2 : (layer.tiles[(w.y * (map.width : Int) + w.x).toNat]?) = none := by
                  rw [List.getElem?_eq_none]
                  exact Nat.le_of_not_lt hlen
                rw [hnone, hnone2]
            · have hcond : (decide (qx = w.x) && decide (qy = w.y) &&
                  decide ((w.y * (map.width : Int) + w.x).toNat < layer.tiles.length)) = false := by
                rcases Decidable.em (qx = w.x) with h1 | h1
                · rcases Decidable.em (qy = w.y) with h2 | h2
                  · exact absurd ⟨h1, h2⟩ hsame
                  · simp [h2]
                · simp [h1]
              rw [hcond, if_bool_false]
              have hidx : (qy * (map.width : Int) + qx).toNat ≠
                  (w.y * (map.width : Int) + w.x).toNat := by
                intro hc
                have := toNat_index_inj map.width qx qy w.x w.y
                  hqb.1 hqb.2.1 hqb.2.2.1 hb.1 hb.2.1 hb.2.2.1 hc
                exact hsame ⟨this.1, this.2⟩
              rw [List.getD_eq_getElem?_getD, List.getD_eq_getElem?_getD,
                List.getElem?_set_ne (Ne.symm hidx)]
        · have hh : rawHit (some map) w qx qy qlid = false := by
            simp [rawHit, hfind, hq]
          rw [hh, if_bool_false]
          rcases hqfind : map.layers.find?
              (fun l => l.id == orElseId qlid map.activeLayerId) with _ | l'
          · rw [hqfind]
            simp
          · have hl' : l'.id = orElseId qlid map.activeLayerId := by
              have := List.find?_some hqfind
              simpa using this
            have hne : ¬ l'.id = orElseId (some w.lid) map.activeLayerId := by
              rw [hl']
              exact hq
            rw [hqfind]
            simp [hne]

theorem rawHit_setTileRaw (s : Option TileMap) (w0 w : TileWrite) (qx qy : Int)
    (qlid : Option String) :
    rawHit (setTileRaw s w0.x w0.y w0.v (some w0.lid)) w qx qy qlid =
      rawHit s w qx qy qlid := by
  rcases s with _ | map
  · rfl
  · by_cases hb : w0.x < 0 ∨ w0.x ≥ (map.width : Int) ∨ w0.y < 0 ∨ w0.y ≥ (map.height : Int)
    · have hs : setTileRaw (some map) w0.x w0.y w0.v (some w0.lid) = some map := by
        simp [setTileRaw, hb]
      rw [hs]
    · rcases hfind : map.layers.find?
          (fun l => l.id == orElseId (some w0.lid) map.activeLayerId) with _ | layer
      · have hs : setTileRaw (some map) w0.x w0.y w0.v (some w0.lid) = some map := by
          simp [setTileRaw, hb, hfind]
        rw [hs]
      · have hs : setTileRaw (some map) w0.x w0.y w0.v (some w0.lid) =
            some { map with
              layers := updateFirst map.layers (orElseId (some w0.lid) map.activeLayerId)
                (fun l => { l with
                  tiles := l.tiles.set (w0.y * (map.width : Int) + w0.x).toNat
                    (clampTile w0.v) }),
              version := map.version + 1 } := by
          simp [setTileRaw, hb, hfind]
        rw [hs]
        simp only [rawHit]
        rw [updateFirst_find?]
        rcases hw : map.layers.find?
            (fun l => l.id == orElseId (some w.lid) map.activeLayerId) with _ | lw
        · rw [hw]
          rfl
        · rw [hw]
          simp only [Option.map_some']
          by_cases hid : lw.id = orElseId (some w0.lid) map.activeLayerId
          · simp [hid, List.length_set]
          · simp [hid]

theorem rawHit_applyRaw (ws : List TileWrite) (s : Option TileMap) (w : TileWrite)
    (qx qy : Int) (qlid : Option String) :
    rawHit (applyRaw s ws) w qx qy qlid = rawHit s w qx qy qlid := by
  induction ws generalizing s with
  | nil => rfl
  | cons w0 rest ih =>
    have hstep : applyRaw s (w0 :: rest) =
        applyRaw (setTileRaw s w0.x w0.y w0.v (some w0.lid)) rest := rfl
    rw [hstep, ih, rawHit_setTileRaw]

/-- Last-write-wins characterisation of a sequence of raw tile writes: the
value read back by any query is the clamped value of the last write that
hits the queried cell, or the original value if none does. -/
theorem getTile_applyRaw (ws : List TileWrite) (s : Option TileMap) (qx qy : Int)
    (qlid : Option String) :
    getTile (applyRaw s ws) qx qy qlid =
      (match ws.reverse.find? (fun w => rawHit s w qx qy qlid) with
       | some w => clampTile w.v
       | none => getTile s qx qy qlid) := by
  induction ws generalizing s with
  | nil => rfl
  | cons w0 rest ih =>
    have hstep : applyRaw s (w0 :: rest) =
        applyRaw (setTileRaw s w0.x w0.y w0.v (some w0.lid)) rest := rfl
    rw [hstep, ih]
    have hfun : (fun w => rawHit (setTileRaw s w0.x w0.y w0.v (some w0.lid)) w qx qy qlid) =
        (fun w => rawHit s w qx qy qlid) := by
      funext w
      exact rawHit_setTileRaw s w0 w qx qy qlid
    rw [hfun, List.reverse_cons, List.find?_append]
    rcases hf : rest.reverse.find? (fun w => rawHit s w qx qy qlid) with _ | w'
    · simp only [Option.none_or]
      rw [getTile_setTileRaw]
      cases hh : rawHit s w0 qx qy qlid
      · simp [List.find?, hh]
      · simp [List.find?, hh]
    · simp [hf]

/-! Embedding of `src/stores/historyStore.ts`.  `Date.now()` and
`crypto.randomUUID()` are impure inputs of the store, so they become
explicit `now`/`newId` parameters of each operation. -/

/-- Closed set of action type tags (`HistoryActionType` in
`types/history.ts`). -/
inductive HistoryActionType where
  | brush
  | fill
  | erase
  | paste
  | cut
  | layerCreate
  | layerDelete
  | layerMerge
  | resize
  | batch
deriving DecidableEq

/-- One tile delta (`TileChange` in `types/history.ts`). -/
structure TileChange where
  x : Int
  y : Int
  layerId : String
  oldTileId : Int
  newTileId : Int
deriving DecidableEq

/-- One entry of a structural snapshot (`MapSnapshot.layers` element). -/
structure SnapshotLayer where
  id : String
  tiles : List Nat
deriving DecidableEq

/-- Whole-grid snapshot stored by resize actions (`MapSnapshot`). -/
structure MapSnapshot where
  width : Nat
  height : Nat
  layers : List SnapshotLayer
deriving DecidableEq

/-- A history action (`HistoryAction`).  The `redoSnapshot` field models
the property that `performUndo` in `useHistory.ts` attaches dynamically to
a resize action after undoing it; it is `none` on every freshly created
action. -/
structure HistoryAction where
  id : String
  type : HistoryActionType
  timestamp : Int
  changes : List TileChange
  snapshot : Option MapSnapshot
  redoSnapshot : Option MapSnapshot
deriving DecidableEq

/-- State of the history store. -/
structure HistoryState where
  past : List HistoryAction
  future : List HistoryAction
  pendingAction : Option HistoryAction
  lastChangeTime : Int
deriving DecidableEq

/-- Initial zustand state of the history store. -/
def initialHistory : HistoryState := ⟨[], [], none, 0⟩

/-- The `MAX_HISTORY_SIZE` constant of `historyStore.ts`. -/
def MAX_HISTORY_SIZE : Nat := 100

/-- The `COALESCE_WINDOW_MS` constant of `historyStore.ts`. -/
def COALESCE_WINDOW_MS : Int := 50

/-- The `while (past.length > MAX_HISTORY_SIZE) past.shift()` trim loop:
drop elements from the front until at most the maximum remain. -/
def trimHistory (l : List HistoryAction) : List HistoryAction :=
  if l.length > MAX_HISTORY_SIZE then trimHistory l.tail else l
termination_by l.length
decreasing_by
  simp only [List.length_tail]
  omega

/-- The duplicate-position test of `recordChange`: same `(x, y, layerId)`
triple. -/
def samePos (a b : TileChange) : Bool :=
  a.x == b.x && a.y == b.y && a.layerId == b.layerId

/-- Embedding of `recordChange` from `historyStore.ts`. -/
def recordChange (h : HistoryState) (change : TileChange) (actionType : HistoryActionType)
    (now : Int) (newId : String) : HistoryState :=
  match h.pendingAction with
  | some pending =>
    if pending.type = actionType ∧ now - h.lastChangeTime < COALESCE_WINDOW_MS then
      let isDup := pending.changes.any (fun c => samePos c change)
      let pending' :=
        if isDup then pending else { pending with changes := pending.changes ++ [change] }
      { h with pendingAction := some pending', lastChangeTime := now }
    else
      { past := if pending.changes.length > 0 then trimHistory (h.past ++ [pending]) else h.past
        future := []
        pendingAction := some ⟨newId, actionType, now, [change], none, none⟩
        lastChangeTime := now }
  | none =>
      { past := h.past
        future := []
        pendingAction := some ⟨newId, actionType, now, [change], none, none⟩
        lastChangeTime := now }

/-- Embedding of `commitPending` from `historyStore.ts`; note the source
only clears a pending action that has at least one change. -/
def commitPending (h : HistoryState) : HistoryState :=
  match h.pendingAction with
  | some pending =>
    if pending.changes.length > 0 then
      { h with past := trimHistory (h.past ++ [pending]), pendingAction := none }
    else h
  | none => h

/-- Embedding of `pushAction` from `historyStore.ts`: flush a non-empty
pending action (without trimming at that point), clear the redo stack,
push the new action and trim. -/
def pushAction (h : HistoryState) (actionType : HistoryActionType) (changes : List TileChange)
    (snapshot : Option MapSnapshot) (now : Int) (newId : String) : HistoryState :=
  let flushed :=
    match h.pendingAction with
    | some pending =>
      if pending.changes.length > 0 then (h.past ++ [pending], (none : Option HistoryAction))
      else (h.past, h.pendingAction)
    | none => (h.past, (none : Option HistoryAction))
  { past := trimHistory (flushed.1 ++ [⟨newId, actionType, now, changes, snapshot, none⟩])
    future := []
    pendingAction := flushed.2
    lastChangeTime := h.lastChangeTime }

/-- Embedding of `undo` from `historyStore.ts`: commit pending changes
first, then pop the most recent past action onto the future stack and
return it. -/
def undo (h : HistoryState) : Option HistoryAction × HistoryState :=
  let h1 := commitPending h
  match h1.past.getLast? with
  | none => (none, h1)
  | some a => (some a, { h1 with past := h1.past.dropLast, future := h1.future ++ [a] })

/-- Embedding of `redo` from `historyStore.ts`. -/
def redo (h : HistoryState) : Option HistoryAction × HistoryState :=
  match h.future.getLast? with
  | none => (none, h)
  | some a => (some a, { h with future := h.future.dropLast, past := h.past ++ [a] })

/-- Result record of `getStats`. -/
structure HistoryStats where
  undoLevels : Nat
  redoLevels : Nat
  totalChanges : Nat
deriving DecidableEq

/-- Embedding of `getStats` from `historyStore.ts`. -/
def getStats (h : HistoryState) : HistoryStats :=
  { undoLevels := h.past.length + (match h.pendingAction with | some _ => 1 | none => 0)
    redoLevels := h.future.length
    totalChanges := (h.past.map (fun a => a.changes.length)).sum +
      (match h.pendingAction with | some p => p.changes.length | none => 0) }

theorem trimHistory_eq_self (l : List HistoryAction) (h : l.length ≤ MAX_HISTORY_SIZE) :
    trimHistory l = l := by
  rw [trimHistory, if_neg (by omega)]

theorem trimHistory_length (l : List HistoryAction) :
    (trimHistory l).length = min l.length MAX_HISTORY_SIZE := by
  rw [trimHistory]
  by_cases h : l.length > MAX_HISTORY_SIZE
  · rw [if_pos h, trimHistory_length l.tail]
    simp only [List.length_tail]
    omega
  · rw [if_neg h]
    omega
termination_by l.length
decreasing_by
  simp only [List.length_tail]
  omega

theorem samePos_trans {a b c : TileChange} (hab : samePos a b = true)
    (hbc : samePos b c = true) : samePos a c = true := by
  simp only [samePos, Bool.and_eq_true, beq_iff_eq] at hab hbc ⊢
  exact ⟨⟨hab.1.1.trans hbc.1.1, hab.1.2.trans hbc.1.2⟩, hab.2.trans hbc.2⟩

/-- C3: starting from an empty history, three `recordChange` calls with
the same action type, each within the coalescing window of the previous
call, followed by `commitPending`, produce exactly one undo level whose
action keeps the first-recorded change for each position: the second
change is dropped when it repeats the first position, and the third when
it repeats either earlier one. -/
theorem C3_coalescing (c1 c2 c3 : TileChange) (ty : HistoryActionType)
    (t1 t2 t3 : Int) (id1 id2 id3 : String)
    (h21 : t2 - t1 < COALESCE_WINDOW_MS) (h32 : t3 - t2 < COALESCE_WINDOW_MS) :
    commitPending (recordChange (recordChange (recordChange initialHistory c1 ty t1 id1)
        c2 ty t2 id2) c3 ty t3 id3) =
      { past := [⟨id1, ty, t1,
          [c1] ++ (if samePos c1 c2 then [] else [c2]) ++
          (if samePos c1 c3 || samePos c2 c3 then [] else [c3]), none, none⟩]
        future := []
        pendingAction := none
        lastChangeTime := t3 } ∧
    (getStats (commitPending (recordChange (recordChange (recordChange initialHistory
        c1 ty t1 id1) c2 ty t2 id2) c3 ty t3 id3))).undoLevels = 1 := by
  have ht : ∀ (a : HistoryAction), trimHistory [a] = [a] := fun a =>
    trimHistory_eq_self [a] (by simp [MAX_HISTORY_SIZE])
  have hmain : commitPending (recordChange (recordChange (recordChange initialHistory
      c1 ty t1 id1) c2 ty t2 id2) c3 ty t3 id3) =
      { past := [⟨id1, ty, t1,
          [c1] ++ (if samePos c1 c2 then [] else [c2]) ++
          (if samePos c1 c3 || samePos c2 c3 then [] else [c3]), none, none⟩]
        future := []
        pendingAction := none
        lastChangeTime := t3 } := by
    by_cases h12 : samePos c1 c2 = true
    · by_cases h13 : samePos c1 c3 = true
      · simp [recordChange, commitPending, initialHistory, h21, h32, h12, h13, ht]
      · have h23 : samePos c2 c3 = false := by
          cases hc : samePos c2 c3
          · rfl
          · exact absurd (samePos_trans h12 hc) (by simp [h13])
        simp [recordChange, commitPending, initialHistory, h21, h32, h12, h13, h23, ht]
    · by_cases h13 : samePos c1 c3 = true
      · simp [recordChange, commitPending, initialHistory, h21, h32, h12, h13, ht]
      · by_cases h23 : samePos c2 c3 = true
        · simp [recordChange, commitPending, initialHistory, h21, h32, h12, h13, h23, ht]
        · simp [recordChange, commitPending, initialHistory, h21, h32, h12, h13, h23, ht]
  refine ⟨hmain, ?_⟩
  rw [hmain]
  simp [getStats]

/-- Evaluation of C3 at concrete inputs: the third change repeats the
first position and is dropped, leaving one committed action with two
change records. -/
theorem C3_witness :
    commitPending (recordChange (recordChange (recordChange initialHistory
        ⟨0, 0, "L", 0, 1⟩ HistoryActionType.brush 0 "a")
        ⟨1, 0, "L", 0, 1⟩ HistoryActionType.brush 10 "b")
        ⟨0, 0, "L", 0, 2⟩ HistoryActionType.brush 20 "c") =
      ⟨[⟨"a", HistoryActionType.brush, 0,
          [⟨0, 0, "L", 0, 1⟩, ⟨1, 0, "L", 0, 1⟩], none, none⟩], [], none, 20⟩ ∧
    (getStats (commitPending (recordChange (recordChange (recordChange initialHistory
        ⟨0, 0, "L", 0, 1⟩ HistoryActionType.brush 0 "a")
        ⟨1, 0, "L", 0, 1⟩ HistoryActionType.brush 10 "b")
        ⟨0, 0, "L", 0, 2⟩ HistoryActionType.brush 20 "c"))).undoLevels = 1 := by
  have h := C3_coalescing ⟨0, 0, "L", 0, 1⟩ ⟨1, 0, "L", 0, 1⟩ ⟨0, 0, "L", 0, 2⟩
    HistoryActionType.brush 0 10 20 "a" "b" "c" (by decide) (by decide)
  refine ⟨?_, h.2⟩
  rw [h.1]
  decide

/-! C6: the undo-depth cap.  `pushAction` is the entry point for
non-coalesced actions; iterating it any number of times keeps the undo
stack at `min n MAX_HISTORY_SIZE` levels, each of which can be undone
exactly once, with no error anywhere. -/

/-- Argument tuple of one `pushAction` call. -/
structure PushInput where
  actionType : HistoryActionType
  changes : List TileChange
  snapshot : Option MapSnapshot
  now : Int
  newId : String

/-- Apply a sequence of `pushAction` calls, first call first. -/
def pushMany (h : HistoryState) (items : List PushInput) : HistoryState :=
  items.foldl (fun t i => pushAction t i.actionType i.changes i.snapshot i.now i.newId) h

/-- State left behind by one `undo` call. -/
def undoStep (h : HistoryState) : HistoryState := (undo h).2

/-- Whether an `undo` call succeeds (returns an action to replay). -/
def undoOk (h : HistoryState) : Bool := (undo h).1.isSome

theorem pushAction_of_pending_none (h : HistoryState) (hp : h.pendingAction = none)
    (ty : HistoryActionType) (cs : List TileChange) (snap : Option MapSnapshot)
    (now : Int) (nid : String) :
    pushAction h ty cs snap now nid =
      { past := trimHistory (h.past ++ [⟨nid, ty, now, cs, snap, none⟩])
        future := []
        pendingAction := none
        lastChangeTime := h.lastChangeTime } := by
  simp [pushAction, hp]

theorem pushMany_spec (items : List PushInput) (h : HistoryState)
    (hp : h.pendingAction = none) (hlen : h.past.length ≤ MAX_HISTORY_SIZE) :
    (pushMany h items).pendingAction = none ∧
    (pushMany h items).past.length = min (h.past.length + items.length) MAX_HISTORY_SIZE := by
  induction items generalizing h with
  | nil =>
    refine ⟨hp, ?_⟩
    simp only [pushMany, List.foldl_nil, List.length_nil, Nat.add_zero]
    omega
  | cons i rest ih =>
    have hstep : pushMany h (i :: rest) =
        pushMany (pushAction h i.actionType i.changes i.snapshot i.now i.newId) rest := rfl
    rw [hstep]
    rw [pushAction_of_pending_none h hp]
    have hlen1 : (trimHistory (h.past ++ [⟨i.newId, i.actionType, i.now, i.changes,
        i.snapshot, none⟩])).length = min (h.past.length + 1) MAX_HISTORY_SIZE := by
      rw [trimHistory_length]
      simp
    obtain ⟨hp2, hl2⟩ := ih
      { past := trimHistory (h.past ++ [⟨i.newId, i.actionType, i.now, i.changes,
          i.snapshot, none⟩])
        future := []
        pendingAction := none
        lastChangeTime := h.lastChangeTime }
      rfl (by simp only []; rw [hlen1]; omega)
    refine ⟨hp2, ?_⟩
    rw [hl2]
    simp only []
    rw [hlen1]
    simp only [List.length_cons]
    omega

theorem undoStep_of_getLast_none (h : HistoryState) (hp : h.pendingAction = none)
    (hl : h.past.getLast? = none) : undoStep h = h := by
  have hc : commitPending h = h := by
    simp [commitPending, hp]
  simp [undoStep, undo, hc, hl]

theorem undoStep_of_getLast_some (h : HistoryState) (hp : h.pendingAction = none)
    (a : HistoryAction) (hl : h.past.getLast? = some a) :
    undoStep h = { h with past := h.past.dropLast, future := h.future ++ [a] } := by
  have hc : commitPending h = h := by
    simp [commitPending, hp]
  simp [undoStep, undo, hc, hl]

theorem undoOk_of_pending_none (h : HistoryState) (hp : h.pendingAction = none) :
    undoOk h = !h.past.isEmpty := by
  have hc : commitPending h = h := by
    simp [commitPending, hp]
  rcases hl : h.past.getLast? with _ | a
  · have hnil : h.past = [] := by
      rwa [List.getLast?_eq_none_iff] at hl
    simp [undoOk, undo, hc, hl, hnil]
  · have hne : h.past ≠ [] := by
      intro hnil
      rw [hnil] at hl
      simp at hl
    simp [undoOk, undo, hc, hl, List.isEmpty_iff, hne]

theorem undoStep_iterate (k : Nat) (h : HistoryState) (hp : h.pendingAction = none) :
    (undoStep^[k] h).pendingAction = none ∧
    (undoStep^[k] h).past.length = h.past.length - k := by
  induction k generalizing h with
  | zero => exact ⟨hp, by simp⟩
  | succ k ih =>
    rw [Function.iterate_succ_apply]
    rcases hl : h.past.getLast? with _ | a
    · have hnil : h.past = [] := by
        rwa [List.getLast?_eq_none_iff] at hl
      rw [undoStep_of_getLast_none h hp hl]
      obtain ⟨hp2, hl2⟩ := ih h hp
      exact ⟨hp2, by rw [hl2, hnil]; simp⟩
    · rw [undoStep_of_getLast_some h hp a hl]
      obtain ⟨hp2, hl2⟩ := ih
        { h with past := h.past.dropLast, future := h.future ++ [a] } hp
      refine ⟨hp2, ?_⟩
      rw [hl2]
      simp only [List.length_dropLast]
      omega

/-- C6: pushing any number of non-coalescing actions onto an empty history
caps the undo stack at `MAX_HISTORY_SIZE` levels (evicting silently, never
failing), yields exactly `min n MAX_HISTORY_SIZE` undo levels, and exactly
that many successful undos: every undo before the cap succeeds and the
next one reports nothing to undo. -/
theorem C6_history_cap (items : List PushInput) :
    (pushMany initialHistory items).past.length = min items.length MAX_HISTORY_SIZE ∧
    (getStats (pushMany initialHistory items)).undoLevels =
      min items.length MAX_HISTORY_SIZE ∧
    (∀ k, k < min items.length MAX_HISTORY_SIZE →
      undoOk (undoStep^[k] (pushMany initialHistory items)) = true) ∧
    undoOk (undoStep^[min items.length MAX_HISTORY_SIZE]
      (pushMany initialHistory items)) = false := by
  obtain ⟨hp, hlen⟩ := pushMany_spec items initialHistory rfl (by decide)
  have hlen' : (pushMany initialHistory items).past.length =
      min items.length MAX_HISTORY_SIZE := by
    rw [hlen]
    simp [initialHistory]
  refine ⟨hlen', ?_, ?_, ?_⟩
  · simp [getStats, hp, hlen']
  · intro k hk
    obtain ⟨hpk, hlk⟩ := undoStep_iterate k _ hp
    rw [undoOk_of_pending_none _ hpk]
    have hpos : (undoStep^[k] (pushMany initialHistory items)).past.length ≠ 0 := by
      rw [hlk, hlen']
      omega
    simp [List.isEmpty_iff, List.length_eq_zero] at hpos ⊢
    intro hnil
    exact hpos (by rw [hnil])
  · obtain ⟨hpk, hlk⟩ := undoStep_iterate (min items.length MAX_HISTORY_SIZE) _ hp
    rw [undoOk_of_pending_none _ hpk]
    have hz : (undoStep^[min items.length MAX_HISTORY_SIZE]
        (pushMany initialHistory items)).past.length = 0 := by
      rw [hlk, hlen']
      omega
    simp [List.isEmpty_iff, List.length_eq_zero] at hz ⊢
    exact hz

/-- Evaluation of C6 with two pushed fill actions: two undo levels, two
successful undos, and the third undo finds nothing. -/
theorem C6_witness :
    (pushMany initialHistory [⟨HistoryActionType.fill, [⟨0, 0, "L", 0, 1⟩], none, 0, "a"⟩,
        ⟨HistoryActionType.fill, [⟨1, 0, "L", 0, 2⟩], none, 1, "b"⟩]).past.length = 2 ∧
    undoOk (pushMany initialHistory [⟨HistoryActionType.fill, [⟨0, 0, "L", 0, 1⟩], none, 0, "a"⟩,
        ⟨HistoryActionType.fill, [⟨1, 0, "L", 0, 2⟩], none, 1, "b"⟩]) = true ∧
    undoOk (undoStep^[2] (pushMany initialHistory
      [⟨HistoryActionType.fill, [⟨0, 0, "L", 0, 1⟩], none, 0, "a"⟩,
        ⟨HistoryActionType.fill, [⟨1, 0, "L", 0, 2⟩], none, 1, "b"⟩])) = false := by
  have h := C6_history_cap [⟨HistoryActionType.fill, [⟨0, 0, "L", 0, 1⟩], none, 0, "a"⟩,
    ⟨HistoryActionType.fill, [⟨1, 0, "L", 0, 2⟩], none, 1, "b"⟩]
  refine ⟨?_, ?_, ?_⟩
  · rw [h.1]
    decide
  · have := h.2.2.1 0 (by decide)
    simpa using this
  · have := h.2.2.2
    simpa [MAX_HISTORY_SIZE] using this

/-! Embedding of `src/hooks/useHistory.ts`: replay of history actions
against the map store through the raw write path, and the combined
`performUndo`/`performRedo` operations. -/

/-- Embedding of `restoreMapSnapshot` from `useHistory.ts`: capture the
current grid as the redo snapshot, then restore dimensions and each
snapshot layer's tiles into the layer with the matching id. -/
def restoreMapSnapshot (s : Option TileMap) (snapshot : MapSnapshot) (now : Int) :
    Option MapSnapshot × Option TileMap :=
  match s with
  | none => (none, s)
  | some map =>
    let currentSnapshot : MapSnapshot :=
      { width := map.width
        height := map.height
        layers := map.layers.map (fun l => ⟨l.id, l.tiles⟩) }
    let restored := snapshot.layers.foldl
      (fun (m : TileMap) sl =>
        { m with layers := updateFirst m.layers sl.id (fun l => { l with tiles := sl.tiles }) })
      { map with width := snapshot.width, height := snapshot.height, modifiedAt := now }
    (some currentSnapshot, some restored)

/-- Write list produced by the undo replay loop of `applyUndo`: the
action's changes in reverse order, writing each `oldTileId`. -/
def undoWrites (a : HistoryAction) : List TileWrite :=
  a.changes.reverse.map (fun c => ⟨c.x, c.y, c.oldTileId, c.layerId⟩)

/-- Write list produced by the redo replay loop of `applyRedo`: the
action's changes in forward order, writing each `newTileId`. -/
def redoWrites (a : HistoryAction) : List TileWrite :=
  a.changes.map (fun c => ⟨c.x, c.y, c.newTileId, c.layerId⟩)

/-- Embedding of `applyUndo` from `useHistory.ts`: a resize action with a
snapshot restores the snapshot (returning the captured redo snapshot); any
other action replays its changes in reverse through `setTileRaw`. -/
def applyUndo (s : Option TileMap) (action : HistoryAction) (now : Int) :
    Option MapSnapshot × Option TileMap :=
  match action.snapshot with
  | some snap =>
    if action.type = HistoryActionType.resize then restoreMapSnapshot s snap now
    else (none, applyRaw s (undoWrites action))
  | none => (none, applyRaw s (undoWrites action))

/-- Embedding of `applyRedo` from `useHistory.ts`. -/
def applyRedo (s : Option TileMap) (action : HistoryAction)
    (redoSnapshot : Option MapSnapshot) (now : Int) : Option TileMap :=
  match redoSnapshot with
  | some snap =>
    if action.type = HistoryActionType.resize then (restoreMapSnapshot s snap now).2
    else applyRaw s (redoWrites action)
  | none => applyRaw s (redoWrites action)

/-- Combined state of the history store and the map store, as wired
together by `useHistory.ts`. -/
structure EditorState where
  history : HistoryState
  mapState : Option TileMap
deriving DecidableEq

/-- Embedding of `performUndo` from `useHistory.ts`: pop an action from
the undo stack, replay it backwards, and for a resize action stash the
captured redo snapshot on the action object now sitting on the redo
stack. -/
def performUndo (es : EditorState) (now : Int) : EditorState :=
  let popped := undo es.history
  match popped.1 with
  | none => { es with history := popped.2 }
  | some a =>
    let applied := applyUndo es.mapState a now
    match applied.1 with
    | some snap =>
      if a.type = HistoryActionType.resize then
        { history := { popped.2 with
            future := popped.2.future.dropLast ++ [{ a with redoSnapshot := some snap }] }
          mapState := applied.2 }
      else { history := popped.2, mapState := applied.2 }
    | none => { history := popped.2, mapState := applied.2 }

/-- Embedding of `performRedo` from `useHistory.ts`. -/
def performRedo (es : EditorState) (now : Int) : EditorState :=
  let popped := redo es.history
  match popped.1 with
  | none => { es with history := popped.2 }
  | some a => { history := popped.2, mapState := applyRedo es.mapState a a.redoSnapshot now }

theorem getTile_eq_of_resolved (map : TileMap) (x y : Int) (l1 l2 : Option String)
    (h : orElseId l1 map.activeLayerId = orElseId l2 map.activeLayerId) :
    getTile (some map) x y l1 = getTile (some map) x y l2 := by
  simp only [getTile, h]

theorem rawHit_v_irrel (s : Option TileMap) (x y v1 v2 : Int) (lid : String)
    (qx qy : Int) (qlid : Option String) :
    rawHit s ⟨x, y, v1, lid⟩ qx qy qlid = rawHit s ⟨x, y, v2, lid⟩ qx qy qlid := rfl

/-- Map-level round trip: replaying an action's changes in reverse with
the old values and then forward with the new values restores every cell,
provided the grid already reflects the action's new values (which is the
state a committed action leaves behind). -/
theorem undo_redo_roundtrip (m : Option TileMap) (a : HistoryAction)
    (hcons : ∀ c ∈ a.changes, getTile m c.x c.y (some c.layerId) = clampTile c.newTileId)
    (qx qy : Int) (qlid : Option String) :
    getTile (applyRaw (applyRaw m (undoWrites a)) (redoWrites a)) qx qy qlid =
      getTile m qx qy qlid := by
  rw [getTile_applyRaw]
  have hfun : (fun w => rawHit (applyRaw m (undoWrites a)) w qx qy qlid) =
      (fun w => rawHit m w qx qy qlid) := by
    funext w
    exact rawHit_applyRaw _ _ _ _ _ _
  rw [hfun]
  rcases hfr : (redoWrites a).reverse.find? (fun w => rawHit m w qx qy qlid) with _ | w
  · rw [getTile_applyRaw]
    have hfu : (undoWrites a).reverse.find? (fun w => rawHit m w qx qy qlid) = none := by
      rw [List.find?_eq_none] at hfr ⊢
      intro u hu
      rw [List.mem_reverse] at hu
      simp only [undoWrites, List.mem_map, List.mem_reverse] at hu
      obtain ⟨c, hc, rfl⟩ := hu
      intro hhit
      have hhit' : rawHit m ⟨c.x, c.y, c.newTileId, c.layerId⟩ qx qy qlid = true := by
        rw [rawHit_v_irrel m c.x c.y c.newTileId c.oldTileId c.layerId qx qy qlid]
        exact hhit
      have hmem : (⟨c.x, c.y, c.newTileId, c.layerId⟩ : TileWrite) ∈ (redoWrites a).reverse := by
        rw [List.mem_reverse]
        simp only [redoWrites, List.mem_map]
        exact ⟨c, hc, rfl⟩
      exact hfr _ hmem hhit'
    rw [hfu]
  · have hmem := List.mem_of_find?_eq_some hfr
    have hhit := List.find?_some hfr
    rw [List.mem_reverse] at hmem
    simp only [redoWrites, List.mem_map] at hmem
    obtain ⟨c, hc, rfl⟩ := hmem
    rcases m with _ | map
    · simp [rawHit] at hhit
    · simp only [rawHit] at hhit
      rcases hfind : map.layers.find?
          (fun l => l.id == orElseId (some c.layerId) map.activeLayerId) with _ | layer
      · rw [hfind] at hhit
        simp at hhit
      · rw [hfind] at hhit
        simp only [Bool.and_eq_true, decide_eq_true_eq] at hhit
        obtain ⟨⟨⟨⟨hres, hqx⟩, hqy⟩, hbnd⟩, hlen⟩ := hhit
        subst hqx
        subst hqy
        have hq := getTile_eq_of_resolved map c.x c.y qlid (some c.layerId) hres
        rw [hq]
        exact (hcons c hc).symm

/-- C1: for a committed non-resize history action whose change positions
are deduplicated and whose new values are what the grid currently holds,
`performUndo` followed by `performRedo` restores the exact pre-undo tile
value at every cell (indeed at every query), and also restores the history
stacks themselves; undo replays the changes in reverse writing old values
and redo replays them forward writing new values, both through the raw
write path. -/
theorem C1_undo_redo (ps future : List HistoryAction) (lct : Int) (a : HistoryAction)
    (m : Option TileMap) (now1 now2 : Int)
    (htype : a.type ≠ HistoryActionType.resize)
    (hdedup : a.changes.Pairwise (fun c d => samePos c d = false))
    (hcons : ∀ c ∈ a.changes, getTile m c.x c.y (some c.layerId) = clampTile c.newTileId) :
    (performRedo (performUndo ⟨⟨ps ++ [a], future, none, lct⟩, m⟩ now1) now2).history =
      ⟨ps ++ [a], future, none, lct⟩ ∧
    ∀ qx qy qlid,
      getTile (performRedo (performUndo ⟨⟨ps ++ [a], future, none, lct⟩, m⟩ now1)
        now2).mapState qx qy qlid = getTile m qx qy qlid := by
  have hundo : undo ⟨ps ++ [a], future, none, lct⟩ =
      (some a, ⟨ps, future ++ [a], none, lct⟩) := by
    simp [undo, commitPending, List.getLast?_concat, List.dropLast_concat]
  have happly : applyUndo m a now1 = (none, applyRaw m (undoWrites a)) := by
    rcases hs : a.snapshot with _ | snap
    · simp [applyUndo, hs]
    · simp [applyUndo, hs, htype]
  have hpu : performUndo ⟨⟨ps ++ [a], future, none, lct⟩, m⟩ now1 =
      ⟨⟨ps, future ++ [a], none, lct⟩, applyRaw m (undoWrites a)⟩ := by
    simp [performUndo, hundo, happly]
  have hredo : redo ⟨ps, future ++ [a], none, lct⟩ =
      (some a, ⟨ps ++ [a], future, none, lct⟩) := by
    simp [redo, List.getLast?_concat, List.dropLast_concat]
  have happly2 : applyRedo (applyRaw m (undoWrites a)) a a.redoSnapshot now2 =
      applyRaw (applyRaw m (undoWrites a)) (redoWrites a) := by
    rcases hs : a.redoSnapshot with _ | snap
    · simp [applyRedo, hs]
    · simp [applyRedo, hs, htype]
  have hpr : performRedo ⟨⟨ps, future ++ [a], none, lct⟩, applyRaw m (undoWrites a)⟩ now2 =
      ⟨⟨ps ++ [a], future, none, lct⟩,
        applyRaw (applyRaw m (undoWrites a)) (redoWrites a)⟩ := by
    simp [performRedo, hredo, happly2]
  rw [hpu, hpr]
  exact ⟨rfl, fun qx qy qlid => undo_redo_roundtrip m a hcons qx qy qlid⟩

/-- Evaluation of C1 at a concrete single-change brush action on a 1x1
map: after undo then redo the changed cell reads back its pre-undo value 5
and the history stacks are restored. -/
theorem C1_witness :
    (performRedo (performUndo ⟨⟨[] ++ [⟨"a", HistoryActionType.brush, 0,
        [⟨0, 0, "L", 3, 5⟩], none, none⟩], [], none, 0⟩,
      some ⟨1, 1, 32, [⟨"L", "Layer 1", true, false, 1, [5]⟩], "L", 0, 0⟩⟩ 1) 2).history =
      ⟨[] ++ [⟨"a", HistoryActionType.brush, 0, [⟨0, 0, "L", 3, 5⟩], none, none⟩],
        [], none, 0⟩ ∧
    getTile (performRedo (performUndo ⟨⟨[] ++ [⟨"a", HistoryActionType.brush, 0,
        [⟨0, 0, "L", 3, 5⟩], none, none⟩], [], none, 0⟩,
      some ⟨1, 1, 32, [⟨"L", "Layer 1", true, false, 1, [5]⟩], "L", 0, 0⟩⟩ 1) 2).mapState
      0 0 (some "L") = 5 := by
  have h := C1_undo_redo [] [] 0
    ⟨"a", HistoryActionType.brush, 0, [⟨0, 0, "L", 3, 5⟩], none, none⟩
    (some ⟨1, 1, 32, [⟨"L", "Layer 1", true, false, 1, [5]⟩], "L", 0, 0⟩) 1 2
    (by decide)
    (by simp)
    (by
      intro c hc
      rw [List.mem_singleton] at hc
      subst hc
      rfl)
  refine ⟨h.1, ?_⟩
  rw [h.2 0 0 (some "L")]
  rfl

/-! Embedding of the selection store (`useSelectionStore`).  The store's
`cut`/`commitSelection` mutate the grid through a `setTile` callback
supplied by the caller; here each operation returns, next to the new
selection state, the list of callback invocations it performs, in order,
so that the grid effect is `applyChecked`/`applyRaw` over that list. -/

/-- A selection rectangle (`Bounds` in `types/selection.ts`). -/
structure Bounds where
  x : Int
  y : Int
  width : Nat
  height : Nat
deriving DecidableEq

/-- A selection (`Selection` in `types/selection.ts`). -/
structure Selection where
  bounds : Bounds
  layerId : String
  tiles : List Nat
  floating : Bool
  offsetX : Int
  offsetY : Int
deriving DecidableEq

/-- The clipboard buffer (`Clipboard` in `types/selection.ts`). -/
structure Clipboard where
  width : Nat
  height : Nat
  tiles : List Nat
  sourceLayerId : String
deriving DecidableEq

/-- State of the selection store (`SelectionState`). -/
structure SelectionState where
  selection : Option Selection
  isDragging : Bool
  dragStartTile : Option (Int × Int)
  dragCurrentTile : Option (Int × Int)
  clipboard : Option Clipboard
deriving DecidableEq

/-- Embedding of `startDrag`: unconditionally clears the selection and
enters the dragging state with both endpoints at the given cell.  It is a
pure function on the selection state and performs no grid writes. -/
def startDrag (st : SelectionState) (x y : Int) : SelectionState :=
  { st with
    selection := none
    isDragging := true
    dragStartTile := some (x, y)
    dragCurrentTile := some (x, y) }

/-- Embedding of `moveSelection`: shifts the offset of whatever selection
exists (the source checks only `if (state.selection)`, not the floating
flag); a pure function on the selection state with no grid writes. -/
def moveSelection (st : SelectionState) (dx dy : Int) : SelectionState :=
  match st.selection with
  | some sel =>
    { st with
      selection := some ({ sel with offsetX := sel.offsetX + dx, offsetY := sel.offsetY + dy }) }
  | none => st

/-- Embedding of `copy`: duplicate the selection payload into the
clipboard. -/
def copy (st : SelectionState) : SelectionState :=
  match st.selection with
  | none => st
  | some sel =>
    { st with
      clipboard := some (⟨sel.bounds.width, sel.bounds.height, sel.tiles, sel.layerId⟩ : Clipboard) }

/-- The `setTile` invocations `cut` performs: zero every cell of the
selection rectangle, row by row. -/
def cutWriteList (sel : Selection) : List TileWrite :=
  (List.range sel.bounds.height).flatMap (fun (dy : Nat) =>
    (List.range sel.bounds.width).map (fun (dx : Nat) =>
      ⟨sel.bounds.x + (dx : Int), sel.bounds.y + (dy : Int), 0, sel.layerId⟩))

/-- Embedding of `cut`: requires a non-floating selection; copies it to
the clipboard, zeroes the source cells (returned as a write list) and
flips the selection to floating. -/
def cut (st : SelectionState) : SelectionState × List TileWrite :=
  match st.selection with
  | none => (st, [])
  | some sel =>
    if sel.floating then (st, [])
    else
      let st1 := copy st
      ({ st1 with selection := some ({ sel with floating := true }) }, cutWriteList sel)

/-- The `setTile` invocations `commitSelection` performs: write each
non-zero payload cell at `bounds + offset`, skipping id-0 cells. -/
def commitWriteList (sel : Selection) : List TileWrite :=
  (List.range sel.bounds.height).flatMap (fun (dy : Nat) =>
    (List.range sel.bounds.width).flatMap (fun (dx : Nat) =>
      if sel.tiles.getD (dy * sel.bounds.width + dx) 0 ≠ 0 then
        [⟨sel.bounds.x + sel.offsetX + (dx : Int), sel.bounds.y + sel.offsetY + (dy : Int),
          (sel.tiles.getD (dy * sel.bounds.width + dx) 0 : Int), sel.layerId⟩]
      else []))

/-- Embedding of `commitSelection`: requires a floating selection; writes
the payload back (as a write list) and clears the selection. -/
def commitSelection (st : SelectionState) : SelectionState × List TileWrite :=
  match st.selection with
  | none => (st, [])
  | some sel =>
    if sel.floating then ({ st with selection := none }, commitWriteList sel)
    else (st, [])

/-- C10: `startDrag(x,y)` unconditionally resets the selection to `null`
(discarding even a floating selection's payload, with no grid write since
the operation never touches the map store) and enters the dragging state
with both drag endpoints at `(x,y)`; the clipboard is untouched. -/
theorem C10_startDrag (st : SelectionState) (x y : Int) :
    startDrag st x y =
      { selection := none
        isDragging := true
        dragStartTile := some (x, y)
        dragCurrentTile := some (x, y)
        clipboard := st.clipboard } := rfl

/-- Counterexample to C4 as stated: on a fixed (non-floating) selection,
`moveSelection(1,0)` does not leave the selection state unchanged — the
source shifts the offset of any existing selection without checking the
floating flag. -/
theorem C4_counterexample :
    moveSelection ⟨some ⟨⟨0, 0, 1, 1⟩, "L", [7], false, 0, 0⟩, false, none, none, none⟩ 1 0 ≠
      ⟨some ⟨⟨0, 0, 1, 1⟩, "L", [7], false, 0, 0⟩, false, none, none, none⟩ := by
  decide

/-- C4 (amended): `moveSelection(dx,dy)` performs no grid writes (it is a
pure function of the selection state) and only adjusts the offset: with no
selection the state is unchanged, and with any selection — floating or
fixed — exactly the offset is shifted by `(dx,dy)`, every other field
untouched. -/
theorem C4_moveSelection_offset_only (st : SelectionState) (dx dy : Int) :
    moveSelection st dx dy =
      { st with
        selection := st.selection.map
          (fun sel => { sel with offsetX := sel.offsetX + dx, offsetY := sel.offsetY + dy }) } := by
  rcases st with ⟨_ | sel, d, ds, dc, cb⟩
  · rfl
  · rfl

theorem setTile_eq_setTileRaw (map : TileMap) (x y v : Int) (lid : String) (layer : Layer)
    (hne : lid ≠ "")
    (hfind : map.layers.find? (fun l => l.id == lid) = some layer)
    (hlock : layer.locked = false) :
    setTile (some map) x y v (some lid) = setTileRaw (some map) x y v (some lid) := by
  have hres : orElseId (some lid) map.activeLayerId = lid := by
    simp [orElseId, hne]
  by_cases hb : x < 0 ∨ x ≥ (map.width : Int) ∨ y < 0 ∨ y ≥ (map.height : Int)
  · simp [setTile, setTileRaw, hres, hfind, hlock, hb]
  · simp [setTile, setTileRaw, hres, hfind, hlock, hb]

/-- When every write of a sequence targets one existing, unlocked layer,
the checked and the raw write paths produce the same map. -/
theorem applyChecked_eq_applyRaw (ws : List TileWrite) (lid : String) (hne : lid ≠ "") :
    ∀ (map : TileMap) (layer : Layer),
      (∀ w ∈ ws, w.lid = lid) →
      map.layers.find? (fun l => l.id == lid) = some layer →
      layer.locked = false →
      applyChecked (some map) ws = applyRaw (some map) ws := by
  induction ws with
  | nil =>
    intro map layer _ _ _
    rfl
  | cons w rest ih =>
    intro map layer hall hfind hlock
    have hw : w.lid = lid := hall w (List.mem_cons_self _ _)
    have hrest : ∀ w' ∈ rest, w'.lid = lid := fun w' hw' => hall w' (List.mem_cons_of_mem _ hw')
    have hstep : applyChecked (some map) (w :: rest) =
        applyChecked (setTile (some map) w.x w.y w.v (some w.lid)) rest := rfl
    have hstep2 : applyRaw (some map) (w :: rest) =
        applyRaw (setTileRaw (some map) w.x w.y w.v (some w.lid)) rest := rfl
    rw [hstep, hstep2]
    have hbridge : setTile (some map) w.x w.y w.v (some w.lid) =
        setTileRaw (some map) w.x w.y w.v (some w.lid) := by
      rw [hw]
      exact setTile_eq_setTileRaw map w.x w.y w.v lid layer hne hfind hlock
    rw [hbridge]
    have hres : orElseId (some w.lid) map.activeLayerId = lid := by
      rw [hw]
      simp [orElseId, hne]
    by_cases hb : w.x < 0 ∨ w.x ≥ (map.width : Int) ∨ w.y < 0 ∨ w.y ≥ (map.height : Int)
    · have hsr : setTileRaw (some map) w.x w.y w.v (some w.lid) = some map := by
        simp [setTileRaw, hb]
      rw [hsr]
      exact ih map layer hrest hfind hlock
    · have hsr : setTileRaw (some map) w.x w.y w.v (some w.lid) =
          some { map with
            layers := updateFirst map.layers lid
              (fun l => { l with
                tiles := l.tiles.set (w.y * (map.width : Int) + w.x).toNat (clampTile w.v) }),
            version := map.version + 1 } := by
        simp [setTileRaw, hb, hres, hfind]
      rw [hsr]
      have hid : layer.id = lid := by
        have := List.find?_some hfind
        simpa using this
      refine ih _ ({ layer with
        tiles := layer.tiles.set (w.y * (map.width : Int) + w.x).toNat (clampTile w.v) })
        hrest ?_ hlock
      show (updateFirst map.layers lid _).find? (fun l => l.id == lid) = _
      rw [updateFirst_find?, hfind]
      simp [hid]

theorem applyChecked_append (m : Option TileMap) (ws1 ws2 : List TileWrite) :
    applyChecked m (ws1 ++ ws2) = applyChecked (applyChecked m ws1) ws2 :=
  List.foldl_append _ _ _ _

theorem clampTile_coe (n : Nat) (h : n ≤ 65535) : clampTile (n : Int) = n := by
  simp only [clampTile]
  omega

theorem rawHit_true_elim (map : TileMap) (w : TileWrite) (qx qy : Int) (qlid : Option String)
    (h : rawHit (some map) w qx qy qlid = true) :
    orElseId qlid map.activeLayerId = orElseId (some w.lid) map.activeLayerId ∧
    qx = w.x ∧ qy = w.y := by
  simp only [rawHit] at h
  rcases hfind : map.layers.find?
      (fun l => l.id == orElseId (some w.lid) map.activeLayerId) with _ | layer
  · rw [hfind] at h
    simp at h
  · rw [hfind] at h
    simp only [Bool.and_eq_true, decide_eq_true_eq] at h
    exact ⟨h.1.1.1.1, h.1.1.1.2, h.1.1.2⟩

theorem mem_cutWriteList {sel : Selection} {w : TileWrite} (h : w ∈ cutWriteList sel) :
    ∃ dy : Nat, dy < sel.bounds.height ∧ ∃ dx : Nat, dx < sel.bounds.width ∧
      w = ⟨sel.bounds.x + dx, sel.bounds.y + dy, 0, sel.layerId⟩ := by
  obtain ⟨dy, hdy, hin⟩ := List.mem_flatMap.mp h
  obtain ⟨dx, hdx, heq⟩ := List.mem_map.mp hin
  exact ⟨dy, List.mem_range.mp hdy, dx, List.mem_range.mp hdx, heq.symm⟩

theorem mem_commitWriteList {sel : Selection} {w : TileWrite} (h : w ∈ commitWriteList sel) :
    ∃ dy : Nat, dy < sel.bounds.height ∧ ∃ dx : Nat, dx < sel.bounds.width ∧
      sel.tiles.getD (dy * sel.bounds.width + dx) 0 ≠ 0 ∧
      w = ⟨sel.bounds.x + sel.offsetX + dx, sel.bounds.y + sel.offsetY + dy,
        ((sel.tiles.getD (dy * sel.bounds.width + dx) 0 : Nat) : Int), sel.layerId⟩ := by
  obtain ⟨dy, hdy, hin⟩ := List.mem_flatMap.mp h
  obtain ⟨dx, hdx, hmem⟩ := List.mem_flatMap.mp hin
  by_cases hpv : sel.tiles.getD (dy * sel.bounds.width + dx) 0 ≠ 0
  · rw [if_pos hpv, List.mem_singleton] at hmem
    exact ⟨dy, List.mem_range.mp hdy, dx, List.mem_range.mp hdx, hpv, hmem⟩
  · rw [if_neg hpv] at hmem
    simp at hmem

theorem commitWriteList_intro (sel : Selection) (dy dx : Nat)
    (hdy : dy < sel.bounds.height) (hdx : dx < sel.bounds.width)
    (hpv : sel.tiles.getD (dy * sel.bounds.width + dx) 0 ≠ 0) :
    (⟨sel.bounds.x + sel.offsetX + dx, sel.bounds.y + sel.offsetY + dy,
      ((sel.tiles.getD (dy * sel.bounds.width + dx) 0 : Nat) : Int),
      sel.layerId⟩ : TileWrite) ∈ commitWriteList sel := by
  refine List.mem_flatMap.mpr ⟨dy, List.mem_range.mpr hdy, ?_⟩
  refine List.mem_flatMap.mpr ⟨dx, List.mem_range.mpr hdx, ?_⟩
  rw [if_pos hpv]
  exact List.mem_singleton_self _

/-- C7: for a fixed (non-floating) selection with zero offset on an
existing, unlocked layer whose payload matches the grid under the
selection rectangle, `cut` followed immediately by `commitSelection`
(both writing through the map store's checked `setTile`) restores the
original tile value at every cell — the cut zeroes the rectangle and
flips the selection to floating, and the commit writes the payload back
at the same bounds, skipping id-0 cells, which the cut already zeroed —
and the selection ends cleared. -/
theorem C7_cut_commit_roundtrip
    (st : SelectionState) (sel : Selection) (map : TileMap) (layer : Layer)
    (hsel : st.selection = some sel)
    (hfloat : sel.floating = false)
    (hox : sel.offsetX = 0) (hoy : sel.offsetY = 0)
    (hne : sel.layerId ≠ "")
    (hfind : map.layers.find? (fun l => l.id == sel.layerId) = some layer)
    (hlock : layer.locked = false)
    (hpayload : ∀ dy, dy < sel.bounds.height → ∀ dx, dx < sel.bounds.width →
      sel.tiles.getD (dy * sel.bounds.width + dx) 0 =
        getTile (some map) (sel.bounds.x + dx) (sel.bounds.y + dy) (some sel.layerId))
    (hrange : ∀ dy, dy < sel.bounds.height → ∀ dx, dx < sel.bounds.width →
      sel.tiles.getD (dy * sel.bounds.width + dx) 0 ≤ 65535) :
    (commitSelection (cut st).1).1.selection = none ∧
    ∀ qx qy qlid,
      getTile (applyChecked (applyChecked (some map) (cut st).2)
        (commitSelection (cut st).1).2) qx qy qlid = getTile (some map) qx qy qlid := by
  have hcut1 : (cut st).1 = { st with
      selection := some ({ sel with floating := true })
      clipboard := some (⟨sel.bounds.width, sel.bounds.height, sel.tiles,
        sel.layerId⟩ : Clipboard) } := by
    simp [cut, copy, hsel, hfloat]
  have hcut2 : (cut st).2 = cutWriteList sel := by
    simp [cut, hsel, hfloat]
  have hcs1 : (commitSelection (cut st).1).1.selection = none := by
    rw [hcut1]
    simp [commitSelection]
  have hcs2 : (commitSelection (cut st).1).2 = commitWriteList sel := by
    rw [hcut1]
    simp only [commitSelection]
    rfl
  refine ⟨hcs1, ?_⟩
  intro qx qy qlid
  rw [hcut2, hcs2, ← applyChecked_append]
  have hall : ∀ w ∈ cutWriteList sel ++ commitWriteList sel, w.lid = sel.layerId := by
    intro w hw
    rcases List.mem_append.mp hw with h | h
    · obtain ⟨dy, hdy, dx, hdx, rfl⟩ := mem_cutWriteList h
      rfl
    · obtain ⟨dy, hdy, dx, hdx, hpv, rfl⟩ := mem_commitWriteList h
      rfl
  rw [applyChecked_eq_applyRaw (cutWriteList sel ++ commitWriteList sel) sel.layerId hne
    map layer hall hfind hlock]
  rw [getTile_applyRaw, List.reverse_append, List.find?_append]
  rcases hf2 : (commitWriteList sel).reverse.find?
      (fun w => rawHit (some map) w qx qy qlid) with _ | w
  · rcases hf1 : (cutWriteList sel).reverse.find?
        (fun w => rawHit (some map) w qx qy qlid) with _ | u
    · rfl
    · show clampTile u.v = getTile (some map) qx qy qlid
      have hu := List.find?_some hf1
      have humem := List.mem_of_find?_eq_some hf1
      rw [List.mem_reverse] at humem
      obtain ⟨dy, hdy, dx, hdx, hueq⟩ := mem_cutWriteList humem
      subst hueq
      have hu' : rawHit (some map)
          (⟨sel.bounds.x + dx, sel.bounds.y + dy, 0, sel.layerId⟩ : TileWrite)
          qx qy qlid = true := hu
      obtain ⟨hres, hqx, hqy⟩ := rawHit_true_elim map _ qx qy qlid hu'
      have hres' : orElseId qlid map.activeLayerId =
          orElseId (some sel.layerId) map.activeLayerId := hres
      have hqx' : qx = sel.bounds.x + dx := hqx
      have hqy' : qy = sel.bounds.y + dy := hqy
      subst hqx'
      subst hqy'
      have e1 : sel.bounds.x + sel.offsetX + (dx : Int) = sel.bounds.x + dx := by
        rw [hox]
        ring
      have e2 : sel.bounds.y + sel.offsetY + (dy : Int) = sel.bounds.y + dy := by
        rw [hoy]
        ring
      have hpv : sel.tiles.getD (dy * sel.bounds.width + dx) 0 = 0 := by
        by_contra hpv0
        have hr := commitWriteList_intro sel dy dx hdy hdx hpv0
        have hrhit : rawHit (some map)
            (⟨sel.bounds.x + sel.offsetX + dx, sel.bounds.y + sel.offsetY + dy,
              ((sel.tiles.getD (dy * sel.bounds.width + dx) 0 : Nat) : Int),
              sel.layerId⟩ : TileWrite)
            (sel.bounds.x + dx) (sel.bounds.y + dy) qlid = true := by
          rw [e1, e2]
          rw [rawHit_v_irrel (some map) (sel.bounds.x + dx) (sel.bounds.y + dy)
            ((sel.tiles.getD (dy * sel.bounds.width + dx) 0 : Nat) : Int) 0 sel.layerId
            (sel.bounds.x + dx) (sel.bounds.y + dy) qlid]
          exact hu'
        exact (List.find?_eq_none.mp hf2) _ (List.mem_reverse.mpr hr) hrhit
      rw [getTile_eq_of_resolved map _ _ qlid (some sel.layerId) hres']
      rw [← hpayload dy hdy dx hdx, hpv]
      rfl
  · show clampTile w.v = getTile (some map) qx qy qlid
    have hw := List.find?_some hf2
    have hwmem := List.mem_of_find?_eq_some hf2
    rw [List.mem_reverse] at hwmem
    obtain ⟨dy, hdy, dx, hdx, hpv, hweq⟩ := mem_commitWriteList hwmem
    subst hweq
    have hw' : rawHit (some map)
        (⟨sel.bounds.x + sel.offsetX + dx, sel.bounds.y + sel.offsetY + dy,
          ((sel.tiles.getD (dy * sel.bounds.width + dx) 0 : Nat) : Int),
          sel.layerId⟩ : TileWrite) qx qy qlid = true := hw
    obtain ⟨hres, hqx, hqy⟩ := rawHit_true_elim map _ qx qy qlid hw'
    have hres' : orElseId qlid map.activeLayerId =
        orElseId (some sel.layerId) map.activeLayerId := hres
    have hqx' : qx = sel.bounds.x + sel.offsetX + dx := hqx
    have hqy' : qy = sel.bounds.y + sel.offsetY + dy := hqy
    subst hqx'
    subst hqy'
    have e1 : sel.bounds.x + sel.offsetX + (dx : Int) = sel.bounds.x + dx := by
      rw [hox]
      ring
    have e2 : sel.bounds.y + sel.offsetY + (dy : Int) = sel.bounds.y + dy := by
      rw [hoy]
      ring
    rw [getTile_eq_of_resolved map _ _ qlid (some sel.layerId) hres']
    rw [e1, e2, ← hpayload dy hdy dx hdx]
    exact clampTile_coe _ (hrange dy hdy dx hdx)

/-- Evaluation of C7 on a 1x1 map holding tile 7 under a fixed 1x1
selection: after cut and commit the selection is cleared and the cell
again reads 7. -/
theorem C7_witness :
    (commitSelection (cut ⟨some ⟨⟨0, 0, 1, 1⟩, "L", [7], false, 0, 0⟩,
        false, none, none, none⟩).1).1.selection = none ∧
    getTile (applyChecked (applyChecked
        (some ⟨1, 1, 32, [⟨"L", "Layer 1", true, false, 1, [7]⟩], "L", 0, 0⟩)
        (cut ⟨some ⟨⟨0, 0, 1, 1⟩, "L", [7], false, 0, 0⟩, false, none, none, none⟩).2)
      (commitSelection (cut ⟨some ⟨⟨0, 0, 1, 1⟩, "L", [7], false, 0, 0⟩,
        false, none, none, none⟩).1).2) 0 0 (some "L") = 7 := by
  have h := C7_cut_commit_roundtrip
    ⟨some ⟨⟨0, 0, 1, 1⟩, "L", [7], false, 0, 0⟩, false, none, none, none⟩
    ⟨⟨0, 0, 1, 1⟩, "L", [7], false, 0, 0⟩
    ⟨1, 1, 32, [⟨"L", "Layer 1", true, false, 1, [7]⟩], "L", 0, 0⟩
    ⟨"L", "Layer 1", true, false, 1, [7]⟩
    rfl rfl rfl rfl (by decide) rfl rfl
    (by
      intro dy hdy dx hdx
      have hdy1 : dy < 1 := hdy
      have hdx1 : dx < 1 := hdx
      have hdy0 : dy = 0 := by omega
      have hdx0 : dx = 0 := by omega
      subst hdy0
      subst hdx0
      rfl)
    (by
      intro dy hdy dx hdx
      have hdy1 : dy < 1 := hdy
      have hdx1 : dx < 1 := hdx
      have hdy0 : dy = 0 := by omega
      have hdx0 : dx = 0 := by omega
      subst hdy0
      subst hdx0
      decide)
  refine ⟨h.1, ?_⟩
  rw [h.2 0 0 (some "L")]
  rfl

/-! Embedding of the global-tile-id functions of the tileset store
(`getGlobalTileId`/`resolveGlobalTileId`).  Of a loaded tileset only the
fields these functions read are kept (`id`, `tileCount`) plus the inert
display name and column count; texture handles are external resources. -/

/-- A registered tileset. -/
structure Tileset where
  id : String
  name : String
  tileCount : Nat
  columns : Nat
deriving DecidableEq

/-- The scan loop of `getGlobalTileId`: walk the tilesets in registration
order accumulating `firstGid` (starting at 1, since 0 is the empty
tile). -/
def getGlobalAux : List Tileset → Nat → String → Nat → Nat
  | [], _, _, _ => 0
  | ts :: rest, firstGid, tilesetId, localId =>
    if ts.id == tilesetId then firstGid + localId
    else getGlobalAux rest (firstGid + ts.tileCount) tilesetId localId

/-- Embedding of `getGlobalTileId` from the tileset store: `firstGid +
localId` for the first tileset with the given id, or 0 when unknown. -/
def getGlobalTileId (tilesets : List Tileset) (tilesetId : String) (localId : Nat) : Nat :=
  getGlobalAux tilesets 1 tilesetId localId

/-- The scan loop of `resolveGlobalTileId`. -/
def resolveAux : List Tileset → Nat → Nat → Option (Tileset × Nat)
  | [], _, _ => none
  | ts :: rest, firstGid, globalId =>
    if firstGid ≤ globalId ∧ globalId < firstGid + ts.tileCount then
      some (ts, globalId - firstGid)
    else resolveAux rest (firstGid + ts.tileCount) globalId

/-- Embedding of `resolveGlobalTileId`: id 0 is the reserved empty tile
(`null`), otherwise return the first tileset block containing the id
together with the local index, or `null` when no block contains it. -/
def resolveGlobalTileId (tilesets : List Tileset) (globalId : Nat) :
    Option (Tileset × Nat) :=
  if globalId = 0 then none else resolveAux tilesets 1 globalId

theorem getGlobalAux_ge (tss : List Tileset) (base : Nat) (tsid : String) (localId : Nat)
    (hmem : tsid ∈ tss.map Tileset.id) :
    base + localId ≤ getGlobalAux tss base tsid localId := by
  induction tss generalizing base with
  | nil => simp at hmem
  | cons t rest ih =>
    by_cases h : t.id = tsid
    · simp [getGlobalAux, h]
    · have hb : (t.id == tsid) = false := by simp [h]
      have hmem' : tsid ∈ rest.map Tileset.id := by
        rcases List.mem_map.mp hmem with ⟨u, hu, hid⟩
        rcases List.mem_cons.mp hu with rfl | hu'
        · exact absurd hid h
        · exact List.mem_map.mpr ⟨u, hu', hid⟩
      simp only [getGlobalAux, hb, Bool.false_eq_true, if_false]
      have := ih (base + t.tileCount) hmem'
      omega

theorem resolveAux_getGlobalAux (tss : List Tileset) (ts : Tileset) (localId : Nat)
    (hlocal : localId < ts.tileCount) :
    ∀ (base : Nat), ts ∈ tss → (tss.map Tileset.id).Nodup →
      resolveAux tss base (getGlobalAux tss base ts.id localId) = some (ts, localId) := by
  induction tss with
  | nil =>
    intro base hmem _
    cases hmem
  | cons t rest ih =>
    intro base hmem hnodup
    rcases List.mem_cons.mp hmem with rfl | hmem'
    · simp only [getGlobalAux, beq_self_eq_true, if_true, resolveAux]
      rw [if_pos ⟨Nat.le_add_right _ _, by omega⟩]
      simp
    · have hne : t.id ≠ ts.id := by
        intro hc
        have h1 : t.id ∈ rest.map Tileset.id :=
          hc ▸ List.mem_map.mpr ⟨ts, hmem', rfl⟩
        exact (List.nodup_cons.mp hnodup).1 h1
      have hb : (t.id == ts.id) = false := by simp [hne]
      simp only [getGlobalAux, hb, Bool.false_eq_true, if_false, resolveAux]
      have hge : base + t.tileCount + localId ≤
          getGlobalAux rest (base + t.tileCount) ts.id localId :=
        getGlobalAux_ge rest (base + t.tileCount) ts.id localId
          (List.mem_map.mpr ⟨ts, hmem', rfl⟩)
      rw [if_neg (by omega)]
      exact ih (base + t.tileCount) hmem' (List.nodup_cons.mp hnodup).2

theorem getGlobalAux_not_mem (tss : List Tileset) (tsid : String) (localId : Nat) :
    ∀ b : Nat, tsid ∉ tss.map Tileset.id → getGlobalAux tss b tsid localId = 0 := by
  induction tss with
  | nil =>
    intro b _
    rfl
  | cons t rest ih =>
    intro b h
    have hne : t.id ≠ tsid := by
      intro hc
      exact h (List.mem_map.mpr ⟨t, List.mem_cons_self _ _, hc⟩)
    have hb : (t.id == tsid) = false := by simp [hne]
    simp only [getGlobalAux, hb, Bool.false_eq_true, if_false]
    refine ih _ ?_
    intro hc
    rcases List.mem_map.mp hc with ⟨v, hv, hid⟩
    exact h (List.mem_map.mpr ⟨v, List.mem_cons_of_mem _ hv, hid⟩)

/-- C8: for every registered tileset and local index below its tile
count, resolving the global id returned by `getGlobalTileId` yields back
exactly that tileset and local index; `getGlobalTileId` of an unknown
tileset id is 0, and `resolveGlobalTileId 0` is the "no tile" result. -/
theorem C8_global_id_roundtrip (tss : List Tileset)
    (hnodup : (tss.map Tileset.id).Nodup)
    (ts : Tileset) (hmem : ts ∈ tss) (localId : Nat) (hlocal : localId < ts.tileCount)
    (badId : String) (hbad : badId ∉ tss.map Tileset.id) :
    resolveGlobalTileId tss (getGlobalTileId tss ts.id localId) = some (ts, localId) ∧
    getGlobalTileId tss badId localId = 0 ∧
    resolveGlobalTileId tss 0 = none := by
  refine ⟨?_, ?_, by simp [resolveGlobalTileId]⟩
  · have hpos : 1 + localId ≤ getGlobalTileId tss ts.id localId :=
      getGlobalAux_ge tss 1 ts.id localId (List.mem_map.mpr ⟨ts, hmem, rfl⟩)
    rw [resolveGlobalTileId, if_neg (by omega)]
    exact resolveAux_getGlobalAux tss ts localId hlocal 1 hmem hnodup
  · exact getGlobalAux_not_mem tss badId localId 1 hbad

/-- Evaluation of C8 with two registered tilesets of 4 and 3 tiles: local
index 1 of the second tileset maps to global id 6 and resolves back. -/
theorem C8_witness :
    resolveGlobalTileId [⟨"A", "TsA", 4, 2⟩, ⟨"B", "TsB", 3, 3⟩]
      (getGlobalTileId [⟨"A", "TsA", 4, 2⟩, ⟨"B", "TsB", 3, 3⟩] "B" 1) =
      some (⟨"B", "TsB", 3, 3⟩, 1) ∧
    getGlobalTileId [⟨"A", "TsA", 4, 2⟩, ⟨"B", "TsB", 3, 3⟩] "C" 1 = 0 ∧
    resolveGlobalTileId [⟨"A", "TsA", 4, 2⟩, ⟨"B", "TsB", 3, 3⟩] 0 = none := by
  have h := C8_global_id_roundtrip [⟨"A", "TsA", 4, 2⟩, ⟨"B", "TsB", 3, 3⟩]
    (by decide) ⟨"B", "TsB", 3, 3⟩ (by decide) 1 (by decide) "C" (by decide)
  exact h

/-! Embedding of `src/tools/floodFill.ts`.  The explicit span stack
becomes a list with its head as the top (the same LIFO discipline as the
JavaScript array's push/pop at the end); the `Set<string>` of `"x,y"`
keys becomes a list of coordinate pairs queried by membership; the three
`while`/`for` loops become recursions on an iteration counter that is
exactly the number of iterations the JavaScript loop can make from its
starting point, with the loop condition still checked on every step.  The
outer `while (stack.length > 0)` loop gets a fuel parameter since its
termination is a property of the algorithm, not of its syntax; with
enough fuel the run below ends by emptying the stack, never by running
out of fuel. -/

/-- A work-stack entry of the span fill (`FillSpan`). -/
structure FillSpan where
  x1 : Int
  x2 : Int
  y : Int
  dy : Int
deriving DecidableEq

/-- The `for (x = leftX; x <= rightX; x++)` body of `scanLineForSpans`,
with `spanStart` carrying the source's `-1` sentinel. -/
def scanAux (getTile : Int → Int → Nat) (target : Nat) (filledSet : List (Int × Int))
    (y dy rightX : Int) :
    Nat → Int → Int → List FillSpan → List FillSpan
  | 0, _, spanStart, stack =>
    if spanStart ≥ 0 then ⟨spanStart, rightX, y, dy⟩ :: stack else stack
  | n + 1, x, spanStart, stack =>
    if getTile x y = target ∧ (x, y) ∉ filledSet then
      scanAux getTile target filledSet y dy rightX n (x + 1)
        (if spanStart < 0 then x else spanStart) stack
    else
      if spanStart ≥ 0 then
        scanAux getTile target filledSet y dy rightX n (x + 1) (-1)
          (⟨spanStart, x - 1, y, dy⟩ :: stack)
      else
        scanAux getTile target filledSet y dy rightX n (x + 1) (-1) stack

/-- Embedding of `scanLineForSpans`: push every maximal run of matching,
unvisited cells inside `[leftX, rightX]` of row `y` onto the stack. -/
def scanLineForSpans (leftX rightX y dy : Int) (target : Nat)
    (getTile : Int → Int → Nat) (filledSet : List (Int × Int))
    (stack : List FillSpan) (mapHeight : Int) : List FillSpan :=
  if y < 0 ∨ y ≥ mapHeight then stack
  else scanAux getTile target filledSet y dy rightX (rightX + 1 - leftX).toNat leftX (-1) stack

/-- The `while (x >= 0 && ...)` extend-left loop of `floodFill`; returns
the updated filled list, visited set, and final `x`. -/
def extendLeft (getTile : Int → Int → Nat) (target : Nat) (y : Int) :
    Nat → Int → List (Int × Int) → List (Int × Int) →
    List (Int × Int) × List (Int × Int) × Int
  | 0, x, filled, filledSet => (filled, filledSet, x)
  | n + 1, x, filled, filledSet =>
    if 0 ≤ x ∧ getTile x y = target ∧ (x, y) ∉ filledSet then
      extendLeft getTile target y n (x - 1) (filled ++ [(x, y)]) ((x, y) :: filledSet)
    else (filled, filledSet, x)

/-- The `while (x < mapWidth && ...)` extend-right loop of `floodFill`. -/
def extendRight (getTile : Int → Int → Nat) (target : Nat) (y mapWidth : Int) :
    Nat → Int → List (Int × Int) → List (Int × Int) →
    List (Int × Int) × List (Int × Int) × Int
  | 0, x, filled, filledSet => (filled, filledSet, x)
  | n + 1, x, filled, filledSet =>
    if x < mapWidth ∧ getTile x y = target ∧ (x, y) ∉ filledSet then
      extendRight getTile target y mapWidth n (x + 1) (filled ++ [(x, y)]) ((x, y) :: filledSet)
    else (filled, filledSet, x)

/-- The `while (stack.length > 0)` loop of `floodFill`. -/
def fillLoop (getTile : Int → Int → Nat) (target : Nat) (mapWidth mapHeight : Int) :
    Nat → List FillSpan → List (Int × Int) → List (Int × Int) → List (Int × Int)
  | 0, _, filled, _ => filled
  | fuel + 1, stack, filled, filledSet =>
    match stack with
    | [] => filled
    | span :: stackRest =>
      if span.y < 0 ∨ span.y ≥ mapHeight then
        fillLoop getTile target mapWidth mapHeight fuel stackRest filled filledSet
      else
        let L := extendLeft getTile target span.y (span.x1 + 1).toNat span.x1 filled filledSet
        let leftX := L.2.2 + 1
        let R := extendRight getTile target span.y mapWidth
          (mapWidth - span.x1 - 1).toNat (span.x1 + 1) L.1 L.2.1
        let rightX := R.2.2 - 1
        if leftX > rightX then
          fillLoop getTile target mapWidth mapHeight fuel stackRest R.1 R.2.1
        else
          let stack1 := scanLineForSpans leftX rightX (span.y + span.dy) span.dy target
            getTile R.2.1 stackRest mapHeight
          let stack2 := if leftX < span.x1 then
              scanLineForSpans leftX (span.x1 - 1) (span.y - span.dy) (-span.dy) target
                getTile R.2.1 stack1 mapHeight
            else stack1
          let stack3 := if rightX > span.x2 then
              scanLineForSpans (span.x2 + 1) rightX (span.y - span.dy) (-span.dy) target
                getTile R.2.1 stack2 mapHeight
            else stack2
          fillLoop getTile target mapWidth mapHeight fuel stack3 R.1 R.2.1

/-- Embedding of `floodFill`: returns the list of filled positions, in
fill order.  The two initial spans are pushed in source order, so the
upward seed (`y - 1`, `dy = -1`) is on top of the stack. -/
def floodFill (fuel : Nat) (startX startY : Int) (newTileId : Nat)
    (getTile : Int → Int → Nat) (mapWidth mapHeight : Int) : List (Int × Int) :=
  let targetTileId := getTile startX startY
  if targetTileId = newTileId then []
  else
    fillLoop getTile targetTileId mapWidth mapHeight fuel
      [⟨startX, startX, startY - 1, -1⟩, ⟨startX, startX, startY, 1⟩] [] []

/-- The connected-region notion of the claim, stated from the spec's
words: the 4-connected region of in-bounds cells holding the start cell's
tile id, computed as a breadth-first closure (`fuel` bounds the number of
expansion rounds; any fuel at least `width * height` is exhaustive). -/
def neighbors4 (p : Int × Int) : List (Int × Int) :=
  [(p.1 + 1, p.2), (p.1 - 1, p.2), (p.1, p.2 + 1), (p.1, p.2 - 1)]

/-- Expansion rounds of the spec-side region computation. -/
def specRegionAux (getTile : Int → Int → Nat) (target : Nat) (W H : Int) :
    Nat → List (Int × Int) → List (Int × Int) → List (Int × Int)
  | 0, acc, _ => acc
  | fuel + 1, acc, frontier =>
    let next := ((frontier.flatMap neighbors4).filter (fun q =>
      decide (0 ≤ q.1 ∧ q.1 < W ∧ 0 ≤ q.2 ∧ q.2 < H) &&
      (getTile q.1 q.2 == target) && !(acc.contains q))).dedup
    if next = [] then acc
    else specRegionAux getTile target W H fuel (acc ++ next) next

/-- The 4-connected region of the start cell, following the claim's
wording; used only to compare against what `floodFill` returns. -/
def specRegion (fuel : Nat) (getTile : Int → Int → Nat) (startX startY W H : Int) :
    List (Int × Int) :=
  specRegionAux getTile (getTile startX startY) W H fuel [(startX, startY)] [(startX, startY)]

/-- The 5x2 grid `00011 / 11101` (row y=0 then y=1) of the failing input,
exposed through the same kind of lookup callback the tool receives (0 for
out-of-bounds queries, like the map store's `getTile`). -/
def exGrid (x y : Int) : Nat :=
  if 0 ≤ x ∧ x < 5 ∧ 0 ≤ y ∧ y < 2 then
    (([[0, 0, 0, 1, 1], [1, 1, 1, 0, 1]] : List (List Nat)).getD y.toNat []).getD x.toNat 0
  else 0

/-- C2: evaluation of the span fill at the failing input.  On the 5x2
grid `00011 / 11101`, the start cell (2,1) holds tile id 1 and its fully
enclosed 4-connected region is exactly the 3 cells (2,1), (1,1), (0,1);
yet `floodFill` with replacement id 9 returns 6 positions, among them
(4,0), which lies outside the region: the initial upward seed span is
scanned even though the cell directly above the start does not match, so
the extend-right loop picks up the diagonally adjacent run at (3,0). -/
theorem C2_floodFill_leaks_across_diagonal :
    floodFill 100 2 1 9 exGrid 5 2 = [(3, 0), (4, 0), (4, 1), (2, 1), (1, 1), (0, 1)] ∧
    specRegion 100 exGrid 2 1 5 2 = [(2, 1), (1, 1), (0, 1)] ∧
    (floodFill 100 2 1 9 exGrid 5 2).length = 6 ∧
    (specRegion 100 exGrid 2 1 5 2).length = 3 ∧
    (4, 0) ∈ floodFill 100 2 1 9 exGrid 5 2 ∧
    (4, 0) ∉ specRegion 100 exGrid 2 1 5 2 := by
  decide

end Tessera
